import Mathlib

/-!
Verification of the lambdafy deployment controller and runtime adapter.

Each Go function that a claim mentions is embedded as an executable Lean
definition, translated from the repository sources: pure logic becomes a
Lean function, provider (AWS) RPCs act on an explicit provider-state record,
loops that wait on external convergence are modelled with the convergence
outcome made explicit, and error returns become Except or a result sum.
-/

namespace Lambdafy

/-- Model of Go strings.Contains: substring containment, decided on the
character lists of the two strings. -/
def strContains (s sub : String) : Bool := decide (sub.data <:+: s.data)

/-- Model of Go strings.HasPrefix on the character lists. -/
def strHasPref (s sub : String) : Bool := sub.data.isPrefixOf s.data

/-- Model of Go strings.ToLower, character by character (the header names
involved are ASCII). -/
def strToLower (s : String) : String := String.mk (s.data.map Char.toLower)

/-! ## util.go: retryOnResourceConflict

The Go loop repeatedly calls fn; its switch inspects the error text and either
returns it, or sleeps one second (honouring context cancellation) and retries.
The i-th call's result is modelled as fn i (none = nil error), context
cancellation during the i-th wait as ctxDone i, and the loop runs on fuel. -/

/-- The switch of retryOnResourceConflict (src/util.go): true exactly when the
error is treated as transient and the loop falls through to the retry wait.
The cases are checked in source order; the ResourceConflictException case
returns the error (not transient) when the text also holds "exists". -/
def retryDecision (e : String) : Bool :=
  if strContains e "ARN does not refer to a valid principal" then true
  else if strContains e "role defined for the function cannot be assumed" then true
  else if strContains e "ResourceConflictException" then ! strContains e "exists"
  else false

/-- Outcome of a run of retryOnResourceConflict: nil return, the error
returned unchanged, the context's error after cancellation during a wait,
or still running when the given fuel ran out. -/
inductive RetryOutcome where
  | ok
  | failed (e : String)
  | cancelled
  | running
  deriving Repr, DecidableEq

/-- The loop of retryOnResourceConflict (src/util.go lines 77-101): call fn,
return nil or a non-transient error at once, otherwise wait (returning the
context error when the context is done) and run again on the shifted call
results. -/
def retryOnResourceConflict : Nat → (Nat → Option String) → (Nat → Bool) → RetryOutcome
  | 0, _, _ => .running
  | fuel + 1, fn, ctxDone =>
    match fn 0 with
    | none => .ok
    | some e =>
      if retryDecision e then
        if ctxDone 0 then .cancelled
        else retryOnResourceConflict fuel (fun n => fn (n + 1)) (fun n => ctxDone (n + 1))
      else .failed e

/-! ## proxy/sqs.go: handleSQS -/

/-- One record of a queue batch event (the fields handleSQS reads). -/
structure SQSRecord where
  messageId : String
  body : String
  deriving Repr, DecidableEq

/-- The loopback response a record's worker observed: none when the POST to
the user program errored, some st for an HTTP response with status st. -/
abbrev Upstream := SQSRecord → Option Nat

/-- The error computed by the per-record closure inside handleSQS
(src/proxy/sqs.go lines 60-90): nil for a 2xx/3xx response, an error for a
transport failure or any other status. -/
def sqsRecordErr (resp : Option Nat) : Option String :=
  match resp with
  | none => some "error sending HTTP request"
  | some st =>
    if 200 ≤ st ∧ st < 400 then none
    else some "non-2xx/3xx response"

/-- handleSQS (src/proxy/sqs.go lines 45-111): one worker per record computes
its error; the collection loop appends the message id of every record whose
worker errored to BatchItemFailures, and the handler returns a batch-level
error exactly when that list is non-empty. The boolean is true when the
returned error is non-nil. -/
def handleSQS (records : List SQSRecord) (upstream : Upstream) : List String × Bool :=
  let results := records.map (fun r => (r.messageId, sqsRecordErr (upstream r)))
  let failures := (results.filter (fun t => t.2.isSome)).map (fun t => t.1)
  (failures, decide (failures.length > 0))

/-! ## proxy/main.go: handleHTTP header forwarding -/

/-- A header of the gateway event or of the forwarded request. -/
abbrev Header := String × String

/-- The header loop of handleHTTP (src/proxy/main.go lines 752-765): each
event header key is lowercased; host becomes the forwarded request's Host,
accept-encoding is withheld (only its gzip flag is remembered), every other
header is added to the forwarded request. -/
def addHeaders : List Header → String → Bool → List Header → List Header × String × Bool
  | [], host, gz, acc => (acc, host, gz)
  | kv :: rest, host, gz, acc =>
    let k := strToLower kv.1
    if k = "host" then addHeaders rest kv.2 gz acc
    else if k = "accept-encoding" then
      addHeaders rest host (gz || strContains kv.2 "gzip") acc
    else addHeaders rest host gz (acc ++ [(k, kv.2)])

/-- The forwarded request built by handleHTTP from an event's headers: before
the header loop runs, the adapter itself adds a Content-Length header for the
decoded body (src/proxy/main.go line 750). Returns the forwarded header list,
the forwarded Host and the remembered gzip flag. -/
def handleHTTPHeaders (eventHeaders : List Header) (body : String) (defaultHost : String) :
    List Header × String × Bool :=
  addHeaders eventHeaders defaultHost false [("content-length", toString body.utf8ByteSize)]

/-! ## proxy/main.go: environment handling and serverless-host detection -/

/-- One process environment entry, name and value. -/
abbrev EnvVar := String × String

/-- Model of Go os.Getenv over an environment list: the value of the first
entry with the given name, or the empty string. -/
def getenv (env : List EnvVar) (name : String) : String := (env.lookup name).getD ""

/-- The reserved internal prefix (src/proxy/main.go line 541). -/
def lambdafyEnvPref : String := "LAMBDAFY_"

/-- The test run applies to each entry of os.Environ (src/proxy/main.go lines
903-907): strings.HasPrefix is applied to the combined NAME=VALUE string. -/
def isLambdafyEntry (kv : EnvVar) : Bool := strHasPref (kv.1 ++ "=" ++ kv.2) lambdafyEnvPref

/-- The strip loop of run: unset every environment entry whose NAME=VALUE
string starts with the internal prefix. -/
def stripLambdafyEnv (env : List EnvVar) : List EnvVar :=
  env.filter (fun kv => ! isLambdafyEntry kv)

/-- Modelled from the spec: the starenv library (an external collaborator)
dereferences env-var values that use the star-prefixed scheme; values not
starting with a star are kept as they are, and no entry name changes. -/
def starenvLoad (deref : String → String) (env : List EnvVar) : List EnvVar :=
  env.map (fun kv => (kv.1, if strHasPref kv.2 "*" then deref kv.2 else kv.2))

/-- inLambda (src/proxy/main.go lines 547-549): the adapter decides it runs
inside the serverless host when AWS_LAMBDA_FUNCTION_NAME,
AWS_LAMBDA_FUNCTION_VERSION and AWS_LAMBDA_RUNTIME_API are all non-empty,
reading the environment the process started with. -/
def inLambda (env : List EnvVar) : Bool :=
  (getenv env "AWS_LAMBDA_FUNCTION_NAME" != "")
    && (getenv env "AWS_LAMBDA_FUNCTION_VERSION" != "")
    && (getenv env "AWS_LAMBDA_RUNTIME_API" != "")

/-- What a run of the adapter does with its command line and environment. -/
inductive RunOutcome where
  | usageError
  | execReplaced (cmd : String) (args : List String) (env : List EnvVar)
  | lambdaMode (cmd : String) (args : List String) (env : List EnvVar)
  deriving Repr, DecidableEq

/-- run (src/proxy/main.go lines 892-930), up to the point where the process
either exec-replaces itself with the user program or starts the proxy: the
LAMBDAFY_-prefixed entries are stripped first, then starenv dereferencing
runs, and only then the inLambda branch is taken. inLambda was computed at
package initialisation from the original environment. -/
def run (argv : List String) (env0 : List EnvVar) (deref : String → String) : RunOutcome :=
  match argv with
  | [] => .usageError
  | [_] => .usageError
  | _ :: cmdName :: rest =>
    let env1 := stripLambdafyEnv env0
    let env2 := starenvLoad deref env1
    if inLambda env0 then .lambdaMode cmdName rest env2
    else .execReplaced cmdName (cmdName :: rest) env2

/-! ## make.go: lambdafyImage -/

/-- The image metadata lambdafyImage inspects and rewrites. -/
structure DockerImage where
  labels : List (String × String)
  entrypoint : List String
  cmd : List String
  architecture : String
  os : String
  deriving Repr, DecidableEq

/-- Go map access with the zero-value default: the label's value or "". -/
def getLabel (ls : List (String × String)) (k : String) : String := (ls.lookup k).getD ""

/-- Setting a label: the built image inherits the original labels and the
LABEL line overrides or adds the one key. -/
def setLabel (ls : List (String × String)) (k v : String) : List (String × String) :=
  if (ls.lookup k).isSome then ls.map (fun kv => if kv.1 = k then (k, v) else kv)
  else ls ++ [(k, v)]

/-- The label key carrying the adapter checksum. -/
def proxyChecksumLabel : String := "lambdafy.proxy.checksum"

/-- lambdafyImage (src/appspec/appspec.go lines 159-251): skip when the
checksum label already equals the embedded adapter's SHA-256 hex; fail unless
the platform is linux/amd64; otherwise strip a leading /lambdafy-proxy from
the entrypoint, prepend it again, keep the cmd, and set the checksum label.
Returns the resulting image and whether a rebuild happened. -/
def lambdafyImage (proxyChksumHex : String) (img : DockerImage) :
    Except String (DockerImage × Bool) :=
  if proxyChksumHex = getLabel img.labels proxyChecksumLabel then .ok (img, false)
  else if img.architecture ≠ "amd64" ∨ img.os ≠ "linux" then
    .error "platform of docker image must be linux/amd64"
  else
    let ep := match img.entrypoint with
      | e0 :: rest => if e0 = "/lambdafy-proxy" then rest else img.entrypoint
      | [] => img.entrypoint
    .ok ({ img with
      entrypoint := "/lambdafy-proxy" :: ep,
      labels := setLabel img.labels proxyChecksumLabel proxyChksumHex }, true)

/-! ## versions.go: versions and resolveVersion

The provider's function state is an explicit record: the published version
list (version string and description, including the pseudo-version $LATEST),
the aliases (name and target version string), the event-source-mapping
bindings, the function-configuration state and environment, and a fault
injection slot for the GetAlias RPC. -/

/-- One event-source mapping of the function. -/
structure Binding where
  uuid : String
  eventSourceArn : String
  fnVersion : Int
  state : String
  deriving Repr, DecidableEq

/-- The provider-side state of one function that the controller acts on. -/
structure ProviderState where
  bindings : List Binding
  aliases : List (String × String)
  urls : List String
  perms : List String
  schedGroup : Bool
  schedules : List String
  envVars : List (String × String)
  fnState : String
  published : List (String × String)
  getAliasErr : Option String
  deriving Repr, DecidableEq

/-- Model of Go strconv.Atoi for in-range inputs: an optional sign followed
by at least one decimal digit; anything else is an error (none). -/
def goAtoi (s : String) : Option Int :=
  match s.data with
  | '-' :: rest =>
    if rest ≠ [] ∧ rest.all Char.isDigit then
      some (-(rest.foldl (fun n c => n * 10 + ((c.toNat - 48 : Nat) : Int)) 0))
    else none
  | '+' :: rest =>
    if rest ≠ [] ∧ rest.all Char.isDigit then
      some (rest.foldl (fun n c => n * 10 + ((c.toNat - 48 : Nat) : Int)) 0)
    else none
  | ds =>
    if ds ≠ [] ∧ ds.all Char.isDigit then
      some (ds.foldl (fun n c => n * 10 + ((c.toNat - 48 : Nat) : Int)) 0)
    else none

/-- Lexicographic comparison on character lists (for the alphabetical sort of
alias names in versions). -/
def charListLt : List Char → List Char → Bool
  | [], [] => false
  | [], _ :: _ => true
  | _ :: _, [] => false
  | a :: as, b :: bs => if a < b then true else if b < a then false else charListLt as bs

/-- Lexicographic string comparison. -/
def strLt (a b : String) : Bool := charListLt a.data b.data

/-- Insertion step of the alphabetical sort. -/
def sortStringsInsert (x : String) : List String → List String
  | [] => [x]
  | y :: ys => if strLt x y then x :: y :: ys else y :: sortStringsInsert x ys

/-- Alphabetical sort of alias names (sort.StringSlice in versions). -/
def sortStrings (l : List String) : List String := l.foldr sortStringsInsert []

/-- One entry of the list versions returns. -/
structure FnVersion where
  version : Int
  aliases : List String
  description : String
  deriving Repr, DecidableEq

/-- Insertion step of the ascending sort by version id. -/
def insertByVersion (x : FnVersion) : List FnVersion → List FnVersion
  | [] => [x]
  | y :: ys => if x.version < y.version then x :: y :: ys else y :: insertByVersion x ys

/-- Ascending sort by version id (sort.Slice in versions). -/
def sortByVersion (l : List FnVersion) : List FnVersion := l.foldr insertByVersion []

/-- The alias names pointing at one version string, alphabetically. -/
def aliasesFor (aliases : List (String × String)) (vstr : String) : List String :=
  sortStrings ((aliases.filter (fun a => a.2 = vstr)).map (fun a => a.1))

/-- The version loop of versions (src/versions.go lines 127-148): drop the
pseudo-version, convert each version string to an int (an unparsable one is
an error), and attach the alias names. -/
def collectVersions (aliases : List (String × String)) :
    List (String × String) → Except String (List FnVersion)
  | [] => .ok []
  | (vstr, desc) :: rest =>
    if vstr = "$LATEST" then collectVersions aliases rest
    else match goAtoi vstr with
      | none => .error "failed to convert version to int"
      | some n =>
        match collectVersions aliases rest with
        | .error m => .error m
        | .ok vs => .ok (FnVersion.mk n (aliasesFor aliases vstr) desc :: vs)

/-- versions (src/versions.go lines 96-155): paginate the versions, drop
$LATEST, attach alias names, sort ascending by version id. -/
def versions (s : ProviderState) : Except String (List FnVersion) :=
  match collectVersions s.aliases s.published with
  | .error m => .error m
  | .ok vs => .ok (sortByVersion vs)

/-- The GetAlias RPC: the injected fault if one is set, else the alias's
target version string, else a ResourceNotFoundException error. -/
def getAlias (s : ProviderState) (name : String) : Except String String :=
  match s.getAliasErr with
  | some m => .error m
  | none =>
    match s.aliases.lookup name with
    | some fv => .ok fv
    | none => .error "ResourceNotFoundException: cannot find alias"

/-- The pseudo version spec (src/versions.go line 16). -/
def latestPseudoVersion : String := "latest"

/-- How a run of resolveVersion ends: a version, an error, or the Go panic
that vers at index len vers minus one raises on an empty slice. -/
inductive ResolveResult where
  | ok (v : Int)
  | err (m : String)
  | panicked
  deriving Repr, DecidableEq

/-- resolveVersion (src/versions.go lines 22-60): empty specs are errors;
numeric specs are returned as they are; latest takes the last (largest)
element of the ascending version list, which panics when the function has no
published numeric version; anything else is looked up as an alias and its
target version string parsed. -/
def resolveVersion (s : ProviderState) (verSpec : String) : ResolveResult :=
  if verSpec = "" then .err "version spec must not be empty"
  else match goAtoi verSpec with
  | some v => .ok v
  | none =>
    if verSpec = latestPseudoVersion then
      match versions s with
      | .error m => .err ("failed lookup latest version: " ++ m)
      | .ok vers =>
        match vers.getLast? with
        | some fv => .ok fv.version
        | none => .panicked
    else
      match getAlias s verSpec with
      | .error m => .err ("failed to get alias: " ++ m)
      | .ok fv =>
        match goAtoi fv with
        | some v => .ok v
        | none => .err "failed to parse version"

/-! ## proxy/sqs.go: handleSQSSend -/

/-- The SQS batch size limit (src/proxy/sqs.go line 26). -/
def maxSQSBatchSize : Nat := 10

/-- One entry of a batch send request: the handler formats the message index
as the entry id and parses it back from failure reports. -/
structure BatchEntry where
  id : Nat
  body : String
  deriving Repr, DecidableEq

/-- The queue service's per-attempt, per-entry outcome: none for a delivered
entry, some sf for a failed one whose SenderFault flag is sf. Attempts are
numbered from 1. -/
abbrev BatchOracle := Nat → Nat → Option Bool

/-- One SendMessageBatch call: its Failed list holds the submitted entries
the service fails on this attempt, in submission order, with their
SenderFault flags. -/
def sendMessageBatch (oracle : BatchOracle) (attempt : Nat) (entries : List BatchEntry) :
    List (BatchEntry × Bool) :=
  entries.filterMap (fun en => (oracle attempt en.id).map (fun sf => (en, sf)))

/-- The retry loop of handleSQSSend (src/proxy/sqs.go lines 241-279): while
this is the first attempt or retryable entries remain, and fewer than 5
attempts have been made, send the retryable entries and split the reported
failures into retryable (service fault) and non-retryable (sender fault)
entries. Returns the retryable leftovers, the non-retryable failures, and the
entry ids each call carried. The fuel only bounds the recursion; six is
enough since the guard stops at 5 attempts. -/
def batchLoop (oracle : BatchOracle) :
    Nat → Nat → List BatchEntry → List BatchEntry → List (List Nat) →
    List BatchEntry × List BatchEntry × List (List Nat)
  | 0, _, retryable, nonRetryable, calls => (retryable, nonRetryable, calls)
  | fuel + 1, attempts, retryable, nonRetryable, calls =>
    if (attempts == 0 || decide (retryable.length > 0)) && decide (attempts < 5) then
      let a := attempts + 1
      let failed := sendMessageBatch oracle a retryable
      let retry2 := (failed.filter (fun p => ! p.2)).map (fun p => p.1)
      let nonRetry2 := nonRetryable ++ (failed.filter (fun p => p.2)).map (fun p => p.1)
      batchLoop oracle fuel a retry2 nonRetry2 (calls ++ [retryable.map (fun en => en.id)])
    else (retryable, nonRetryable, calls)

/-- The part of a content type before the first semicolon. -/
def splitFirstSemi : List Char → List Char
  | [] => []
  | c :: cs => if c = ';' then [] else c :: splitFirstSemi cs

/-- Whitespace trim on both ends. -/
def strTrim (s : String) : String :=
  String.mk (((s.data.dropWhile Char.isWhitespace).reverse.dropWhile Char.isWhitespace).reverse)

/-- Model of mime.ParseMediaType adequate for the content types at hand: the
media type is the part before the first semicolon, trimmed and lowercased; an
empty result is a parse error. -/
def parseMediaType (ct : String) : Option String :=
  let base := strToLower (strTrim (String.mk (splitFirstSemi ct.data)))
  if base = "" then none else some base

/-- The parts of the side-channel POST request that handleSQSSend reads. JSON
parsing is abstracted: bodyJson is the result of json.Unmarshal of body into
a string array, none when the body is not such an array. -/
structure SQSSendRequest where
  method : String
  queryId : String
  knownId : Bool
  batchHeader : String
  contentType : String
  body : String
  bodyJson : Option (List String)
  deriving Repr, DecidableEq

/-- A send call the handler issued to the queue service. -/
inductive SendCall where
  | single (body : String)
  | batch (ids : List Nat)
  deriving Repr, DecidableEq

/-- handleSQSSend (src/proxy/sqs.go lines 143-288). Non-POST: 405. Missing or
unknown queue id: 400. Without the batch header: one plain send (sendOk is
its outcome). With it: require an application/json media type, a JSON array
of strings that is non-empty and holds at most maxSQSBatchSize messages,
issue one batch call per retry round through batchLoop, and answer 500 when
failed entries remain, else 200. Returns the HTTP status and the send calls
issued. -/
def handleSQSSend (req : SQSSendRequest) (sendOk : Bool) (oracle : BatchOracle) :
    Nat × List SendCall :=
  if req.method ≠ "POST" then (405, [])
  else if req.queryId = "" then (400, [])
  else if ! req.knownId then (400, [])
  else if req.batchHeader = "" then
    if sendOk then (200, [SendCall.single req.body])
    else (500, [SendCall.single req.body])
  else
    match parseMediaType req.contentType with
    | none => (400, [])
    | some mt =>
      if mt ≠ "application/json" then (400, [])
      else match req.bodyJson with
        | none => (400, [])
        | some messages =>
          if messages.length = 0 then (400, [])
          else if messages.length > maxSQSBatchSize then (400, [])
          else
            let entries := messages.enum.map (fun p => BatchEntry.mk p.1 p.2)
            let res := batchLoop oracle 6 0 entries [] []
            if res.1.length + res.2.1.length > 0 then (500, res.2.2.map SendCall.batch)
            else (200, res.2.2.map SendCall.batch)

/-- The well-formed batch request of the side-channel scenario: a POST with a
known queue id, the batch-message header, an application/json content type and
a JSON body parsed into the given messages. -/
def batchReq (messages : List String) : SQSSendRequest :=
  SQSSendRequest.mk "POST" "X" true "1" "application/json" "" (some messages)

/-! ## deploy.go: the staged rollout

The provider is the explicit ProviderState record; every RPC the controller
issues appends an Event to the run's trace. Wait loops poll a provider whose
mappings converge to the requested state as soon as the update call returns,
so a wait that cannot converge is the distinguished hang outcome. -/

/-- The reserved production alias (src/deploy.go line 23). -/
def activeAlias : String := "lambdafy-active"

/-- The reserved staging alias (src/deploy.go line 24). -/
def preactiveAlias : String := "lambdafy-preactive"

/-- Modelled from the spec: the deploy-time cron hint prefix. The constants
specInEnvPrefix and specInEnvCronPrefix that deploy.go reads are declared in
a repository file that is not under src; the spec names the keys
LAMBDAFY__SPEC_CORS and LAMBDAFY__SPEC_CRON_name. -/
def specInEnvCronPref : String := "LAMBDAFY__SPEC_CRON_"

/-- One provider RPC of the staged rollout, as recorded in the run's trace. -/
inductive Event where
  | updateMapping (uuid : String) (enabled : Bool)
  | getMapping (uuid : String)
  | deleteScheduleGroup
  | createScheduleGroup
  | createSchedule (name : String)
  | createAlias (name : String) (version : Int)
  | updateAlias (name : String) (version : Int)
  | createFunctionUrl (name : String)
  | updateFunctionUrl (name : String)
  | addPermission (name : String)
  | getFunction (qualifier : String)
  | deleteAlias (name : String)
  deriving Repr, DecidableEq

/-- The alias or qualifier an event addresses, when it addresses one. -/
def eventAliasName : Event → Option String
  | .createAlias n _ => some n
  | .updateAlias n _ => some n
  | .createFunctionUrl n => some n
  | .updateFunctionUrl n => some n
  | .addPermission n => some n
  | .getFunction q => some q
  | .deleteAlias n => some n
  | _ => none

/-- The outcome of a controller operation: success, a returned error, or a
wait loop that would poll forever. -/
inductive OpResult (α : Type) where
  | ok (a : α)
  | err (e : String)
  | hang
  deriving Repr

/-- The SQS source-ARN test of enableSQSTriggers (src/deploy.go line 192). -/
def isSqsArn (arn : String) : Bool := strHasPref arn "arn:aws:sqs:"

/-- The UpdateEventSourceMapping RPC: every binding with the uuid converges
to the requested state. -/
def setBindingState (bs : List Binding) (uuid : String) (st : String) : List Binding :=
  bs.map (fun b => if b.uuid = uuid then { b with state := st } else b)

/-- The terminal state the wait loop polls for. -/
def desiredState (enable : Bool) : String := if enable then "Enabled" else "Disabled"

/-- enableSQSTriggers (src/deploy.go lines 178-229): list the event-source
mappings of fnName:version, update every SQS-backed one to the requested
state, then poll every listed mapping until all reach the desired terminal
state. States change only through the updates, so the wait either passes on
the first round of polls or never. -/
def enableSQSTriggers (s : ProviderState) (version : Int) (enable : Bool) :
    OpResult (ProviderState × List Event) :=
  let lst := s.bindings.filter (fun b => b.fnVersion == version)
  let sqsList := lst.filter (fun b => isSqsArn b.eventSourceArn)
  let updEvents := sqsList.map (fun b => Event.updateMapping b.uuid enable)
  let bindings2 := sqsList.foldl
    (fun acc b => setBindingState acc b.uuid (desiredState enable)) s.bindings
  let s2 := { s with bindings := bindings2 }
  let pollEvents := lst.map (fun b => Event.getMapping b.uuid)
  if lst.all (fun b =>
      match s2.bindings.find? (fun b2 => b2.uuid == b.uuid) with
      | some b2 => b2.state == desiredState enable
      | none => false) then
    .ok (s2, updEvents ++ pollEvents)
  else .hang

/-- Create-or-update of an alias record (CreateAlias answers already exists
when the alias is present, and the code falls back to UpdateAlias). -/
def updateAliasMap (aliases : List (String × String)) (name vstr : String) :
    List (String × String) :=
  if (aliases.lookup name).isSome then
    aliases.map (fun p => if p.1 = name then (name, vstr) else p)
  else aliases ++ [(name, vstr)]

/-- prepareDeploy (src/deploy.go lines 81-175): create or update the alias,
read the function configuration for the CORS hint, create or update the
alias's function URL, and add the public-invoke permission (already exists
tolerated). Returns the new state, the events, and the function URL. -/
def prepareDeploy (s : ProviderState) (version : Int) (name : String) :
    ProviderState × List Event × String :=
  let aliasPresent := (s.aliases.lookup name).isSome
  let urlPresent := s.urls.contains name
  let permPresent := s.perms.contains name
  ({ s with
      aliases := updateAliasMap s.aliases name (toString version),
      urls := if urlPresent then s.urls else s.urls ++ [name],
      perms := if permPresent then s.perms else s.perms ++ [name] },
    (if aliasPresent then [Event.updateAlias name version]
      else [Event.createAlias name version])
      ++ [Event.getFunction name]
      ++ (if urlPresent then [Event.updateFunctionUrl name]
        else [Event.createFunctionUrl name])
      ++ [Event.addPermission name],
    "https://" ++ name ++ ".lambda-url")

/-- The cron hints read back from the function environment (src/deploy.go
lines 314-320): key suffix and cron expression. -/
def cronsOf (envVars : List (String × String)) : List (String × String) :=
  envVars.filterMap (fun kv =>
    if strHasPref kv.1 specInEnvCronPref then
      some (String.mk (kv.1.data.drop specInEnvCronPref.data.length), kv.2)
    else none)

/-- The tail of deploy after the queue cutover (src/deploy.go lines 293-370):
delete the schedule group (absence tolerated), read the function environment,
recreate the group and one schedule per cron hint when any exist, and stage
the active alias, its URL and the public permission last. -/
def deployTail (s3 : ProviderState) (version : Int) (preEnTr disTr : List Event) :
    OpResult (ProviderState × List Event) :=
  let s4 := { s3 with schedGroup := false, schedules := [] }
  let crons := cronsOf s4.envVars
  let s5 := if crons.length > 0 then
      { s4 with schedGroup := true, schedules := crons.map (fun c => c.1) }
    else s4
  let e6 := if crons.length > 0 then
      Event.createScheduleGroup :: crons.map (fun c => Event.createSchedule c.1)
    else []
  let pd := prepareDeploy s5 version activeAlias
  .ok (pd.1, preEnTr ++ disTr
    ++ (Event.deleteScheduleGroup :: Event.getFunction (toString version) :: e6)
    ++ pd.2.1)

/-- deploy (src/deploy.go lines 232-371), from the staging of the preactive
alias onwards: stage, prime (primeOk is the canary outcome), enable the new
version's SQS triggers, resolve the previously active version through the
active alias (a ResourceNotFoundException skips the disable step, any other
resolution error aborts), disable the old version's triggers, then recreate
the cron schedules and cut the active alias over. -/
def deploy (s0 : ProviderState) (version : Int) (primeOk : Bool) :
    OpResult (ProviderState × List Event) :=
  let pd := prepareDeploy s0 version preactiveAlias
  if ! primeOk then .err "function failed to return non 5xx - aborting deploy"
  else
    match enableSQSTriggers pd.1 version true with
    | .err e => .err ("failed to enable SQS triggers: " ++ e)
    | .hang => .hang
    | .ok (s2, enTr) =>
      match resolveVersion s2 activeAlias with
      | .panicked => .hang
      | .err m =>
        if strContains m "ResourceNotFoundException" then
          deployTail s2 version (pd.2.1 ++ enTr) []
        else .err ("failed to resolve version for alias: " ++ m)
      | .ok oldVer =>
        match enableSQSTriggers s2 oldVer false with
        | .err e => .err ("failed to disable SQS triggers: " ++ e)
        | .hang => .hang
        | .ok (s3, disTr) => deployTail s3 version (pd.2.1 ++ enTr) disTr

/-- waitOnFunc (src/util.go lines 151-169): poll the function state, succeed
on Active, keep polling on Pending (which without further transitions never
ends), fail on anything else. -/
def waitOnFunc (s : ProviderState) : OpResult Unit :=
  if s.fnState == "Active" then .ok ()
  else if s.fnState == "Pending" then .hang
  else .err ("invalid state while polling: " ++ s.fnState)

/-- The DeleteAlias step of undeploy: a 404 from the provider is treated as
success, so the state simply loses the active alias. -/
def deleteActiveAlias (s : ProviderState) (tr : List Event) :
    OpResult (ProviderState × List Event) :=
  .ok ({ s with aliases := s.aliases.filter (fun p => ! (p.1 == activeAlias)) },
    tr ++ [Event.deleteAlias activeAlias])

/-- undeploy (src/deploy.go lines 373-411): resolve the active version (a
ResourceNotFoundException skips the disable and the stabilization wait, any
other resolution error aborts), disable its SQS triggers, wait for the
function to stabilize, and delete the active alias (404 tolerated). -/
def undeploy (s0 : ProviderState) : OpResult (ProviderState × List Event) :=
  match resolveVersion s0 activeAlias with
  | .panicked => .hang
  | .err m =>
    if strContains m "ResourceNotFoundException" then deleteActiveAlias s0 []
    else .err ("failed to resolve version for alias: " ++ m)
  | .ok numVer =>
    match enableSQSTriggers s0 numVer false with
    | .err e => .err ("failed to disable SQS triggers: " ++ e)
    | .hang => .hang
    | .ok (s1, disTr) =>
      match waitOnFunc s1 with
      | .err e => .err e
      | .hang => .hang
      | .ok _ => deleteActiveAlias s1 disTr

/-- The events of one enable or disable phase over the bindings of one
version, when they are all SQS-backed: the updates, then the polls. -/
def enableTrace (s0 : ProviderState) (v : Int) (en : Bool) : List Event :=
  (s0.bindings.filter (fun b => b.fnVersion == v)).map
      (fun b => Event.updateMapping b.uuid en)
    ++ (s0.bindings.filter (fun b => b.fnVersion == v)).map
      (fun b => Event.getMapping b.uuid)

/-- The schedule segment of the deploy trace: group deletion, the environment
read, and the recreation when cron hints exist. -/
def schedTrace (s0 : ProviderState) (v : Int) : List Event :=
  Event.deleteScheduleGroup :: Event.getFunction (toString v)
    :: (if (cronsOf s0.envVars).length > 0 then
          Event.createScheduleGroup
            :: (cronsOf s0.envVars).map (fun c => Event.createSchedule c.1)
        else [])

/-- The bindings after the enable phase: every binding of the new version is
Enabled, the rest are untouched. -/
def midBindings (s0 : ProviderState) (v : Int) : List Binding :=
  s0.bindings.map (fun b =>
    if b.fnVersion == v then { b with state := "Enabled" } else b)

/-- A concrete provider state used to exercise deploy: an active alias at
version 7, one enabled SQS binding for version 7 and one disabled binding for
the new version 8. -/
def sampleDeployState : ProviderState :=
  ⟨[⟨"u-new", "arn:aws:sqs:us-west-2:1:q", 8, "Disabled"⟩,
    ⟨"u-old", "arn:aws:sqs:us-west-2:1:q", 7, "Enabled"⟩],
   [("lambdafy-active", "7")], ["lambdafy-active"], [], false, [], [],
   "Active", [("$LATEST", ""), ("7", "v7"), ("8", "v8")], none⟩

/-- A concrete provider state for a first-ever deploy: no active alias, one
disabled SQS binding for the new version 8. -/
def sampleFirstDeployState : ProviderState :=
  ⟨[⟨"u-new", "arn:aws:sqs:us-west-2:1:q", 8, "Disabled"⟩],
   [], [], [], false, [], [], "Active", [("$LATEST", ""), ("8", "v8")], none⟩

end Lambdafy

namespace Lambdafy

/-- C5 (amended). retryOnResourceConflict returns nil as soon as fn returns
nil; it returns fn's error unchanged and immediately when the text is not
transient; when the error is transient it waits and re-runs fn on the
shifted sequence, and returns the context's error if the context is done
during the wait; and an error is transient exactly when it holds the
ARN-principal substring, or the role-cannot-be-assumed substring, or
ResourceConflictException without "exists". -/
theorem retryOnResourceConflict_spec (fuel : Nat) (fn : Nat → Option String)
    (ctxDone : Nat → Bool) :
    (fn 0 = none → retryOnResourceConflict (fuel + 1) fn ctxDone = .ok)
    ∧ (∀ e, fn 0 = some e → retryDecision e = false →
        retryOnResourceConflict (fuel + 1) fn ctxDone = .failed e)
    ∧ (∀ e, fn 0 = some e → retryDecision e = true → ctxDone 0 = true →
        retryOnResourceConflict (fuel + 1) fn ctxDone = .cancelled)
    ∧ (∀ e, fn 0 = some e → retryDecision e = true → ctxDone 0 = false →
        retryOnResourceConflict (fuel + 1) fn ctxDone =
          retryOnResourceConflict fuel (fun n => fn (n + 1)) (fun n => ctxDone (n + 1)))
    ∧ (∀ e, retryDecision e =
        (strContains e "ARN does not refer to a valid principal"
          || strContains e "role defined for the function cannot be assumed"
          || (strContains e "ResourceConflictException" && ! strContains e "exists"))) := by
  refine ⟨fun h => by simp [retryOnResourceConflict, h], fun e he hd => ?_,
    fun e he hd hc => ?_, fun e he hd hc => ?_, fun e => ?_⟩
  · simp [retryOnResourceConflict, he, hd]
  · simp [retryOnResourceConflict, he, hd, hc]
  · simp [retryOnResourceConflict, he, hd, hc]
  · unfold retryDecision
    cases strContains e "ARN does not refer to a valid principal" <;>
      cases strContains e "role defined for the function cannot be assumed" <;>
        cases strContains e "ResourceConflictException" <;>
          cases strContains e "exists" <;> simp

/-- Witness for C5 at a concrete call sequence: a non-transient error is
returned unchanged by the first iteration. -/
theorem retryOnResourceConflict_spec_witness :
    retryOnResourceConflict 1 (fun _ => some "AccessDenied") (fun _ => false) =
      .failed "AccessDenied" :=
  (retryOnResourceConflict_spec 0 (fun _ => some "AccessDenied")
    (fun _ => false)).2.1 "AccessDenied" rfl (by decide)

/-- C5 counterexample. An error text holding both ResourceConflictException
and "exists" is claimed to be returned unchanged and immediately; but when it
also holds the ARN-principal substring the switch's first case wins and the
loop retries: after two iterations with this constant error it is still
running instead of having returned the error. -/
theorem retryOnResourceConflict_cex :
    strContains
        "ResourceConflictException: alias exists and its ARN does not refer to a valid principal"
        "ResourceConflictException" = true
    ∧ strContains
        "ResourceConflictException: alias exists and its ARN does not refer to a valid principal"
        "exists" = true
    ∧ retryOnResourceConflict 2
        (fun _ => some
          "ResourceConflictException: alias exists and its ARN does not refer to a valid principal")
        (fun _ => false) = .running := by
  refine ⟨by decide, by decide, ?_⟩
  decide

/-- C3. The batchItemFailures list returned by handleSQS holds exactly the
message ids of the records whose loopback POST errored or answered with a
status outside the 200-399 range, and the batch-level error is non-nil
exactly when that list is non-empty. -/
theorem handleSQS_failures_spec (records : List SQSRecord) (upstream : Upstream) :
    (∀ id, id ∈ (handleSQS records upstream).1 ↔
      ∃ r ∈ records, r.messageId = id ∧ (sqsRecordErr (upstream r)).isSome = true)
    ∧ ((handleSQS records upstream).2 = true ↔ (handleSQS records upstream).1 ≠ []) := by
  constructor
  · intro id
    simp only [handleSQS, List.mem_map, List.mem_filter]
    aesop
  · simp only [handleSQS, gt_iff_lt, decide_eq_true_eq]
    rw [List.length_pos]

/-- The header loop in closed form: the forwarded headers are the accumulator
followed by the lowercased non-host non-accept-encoding event headers, the
Host is the last host value seen, and the gzip flag accumulates over the
accept-encoding values. -/
theorem addHeaders_spec (hs : List Header) : ∀ host gz acc,
    addHeaders hs host gz acc =
      (acc ++ (hs.filter (fun kv => !(strToLower kv.1 == "host")
            && !(strToLower kv.1 == "accept-encoding"))).map (fun kv => (strToLower kv.1, kv.2)),
        hs.foldl (fun h kv => if strToLower kv.1 = "host" then kv.2 else h) host,
        hs.foldl (fun g kv =>
          if strToLower kv.1 = "accept-encoding" then g || strContains kv.2 "gzip" else g) gz) := by
  induction hs with
  | nil => intro host gz acc; simp [addHeaders]
  | cons kv rest ih =>
    intro host gz acc
    by_cases h1 : strToLower kv.1 = "host"
    · simp [addHeaders, h1, ih]
    · by_cases h2 : strToLower kv.1 = "accept-encoding"
      · simp [addHeaders, h1, h2, ih]
      · simp [addHeaders, h1, h2, ih]

/-- A list without the equals sign character is a prefix of NAME followed by
an equals sign and VALUE exactly when it is a prefix of NAME. -/
theorem prefix_through_eq (p : List Char) (hp : '=' ∉ p) :
    ∀ (k v : List Char), (p <+: k ++ '=' :: v ↔ p <+: k) := by
  induction p with
  | nil => intro k v; simp
  | cons c p' ih =>
    intro k v
    have hc : c ≠ '=' := fun h => hp (h ▸ List.mem_cons_self c p')
    have hp' : '=' ∉ p' := fun h => hp (List.mem_cons_of_mem c h)
    cases k with
    | nil =>
      simp only [List.nil_append, List.cons_prefix_cons]
      constructor
      · rintro ⟨h, -⟩; exact absurd h hc
      · rintro h; exact absurd (List.prefix_nil.mp h) (by simp)
    | cons a k' =>
      simp only [List.cons_append, List.cons_prefix_cons]
      rw [ih hp' k' v]

/-- Stripping by the combined NAME=VALUE string is the same as stripping by
the entry's name: the internal prefix holds no equals sign. -/
theorem isLambdafyEntry_eq_name (kv : EnvVar) :
    isLambdafyEntry kv = strHasPref kv.1 lambdafyEnvPref := by
  have hdata : (kv.1 ++ "=" ++ kv.2).data = kv.1.data ++ '=' :: kv.2.data := by
    simp [String.data_append]
  rw [Bool.eq_iff_iff]
  simp only [isLambdafyEntry, strHasPref, List.isPrefixOf_iff_prefix, hdata]
  exact prefix_through_eq lambdafyEnvPref.data (by decide) kv.1.data kv.2.data

/-- Looking a key up in a filtered environment equals looking it up in the
original when every entry carrying that key passes the filter. -/
theorem lookup_filter (k : String) (p : EnvVar → Bool)
    (hp : ∀ kv : EnvVar, kv.1 = k → p kv = true) :
    ∀ env : List EnvVar, (env.filter p).lookup k = env.lookup k := by
  intro env
  induction env with
  | nil => simp
  | cons kv rest ih =>
    obtain ⟨n, v⟩ := kv
    by_cases hk : n = k
    · subst hk
      have hkv : p (n, v) = true := hp (n, v) rfl
      simp [List.filter_cons, hkv, List.lookup]
    · have hne : (k == n) = false := by
        simp [beq_eq_false_iff_ne, Ne.symm hk]
      cases hpkv : p (n, v) <;>
        simp [List.filter_cons, hpkv, List.lookup, hne, ih]

/-- C9 (amended). The request forwarded by handleHTTP carries the adapter's
own Content-Length header followed by exactly the event's headers other than
host and accept-encoding (matched case-insensitively, keys lowercased, values
verbatim); the last host header's value becomes the forwarded request's Host;
and no forwarded header is named host or accept-encoding. -/
theorem handleHTTPHeaders_spec (hs : List Header) (body : String) (host0 : String) :
    (handleHTTPHeaders hs body host0).1
        = ("content-length", toString body.utf8ByteSize)
            :: (hs.filter (fun kv => !(strToLower kv.1 == "host")
                  && !(strToLower kv.1 == "accept-encoding"))).map (fun kv => (strToLower kv.1, kv.2))
    ∧ (handleHTTPHeaders hs body host0).2.1
        = hs.foldl (fun h kv => if strToLower kv.1 = "host" then kv.2 else h) host0
    ∧ ∀ kv ∈ (handleHTTPHeaders hs body host0).1,
        kv.1 ≠ "host" ∧ kv.1 ≠ "accept-encoding" := by
  have h := addHeaders_spec hs host0 false [("content-length", toString body.utf8ByteSize)]
  refine ⟨by simp [handleHTTPHeaders, h], by simp [handleHTTPHeaders, h], ?_⟩
  intro kv hkv
  rw [show (handleHTTPHeaders hs body host0).1
      = ("content-length", toString body.utf8ByteSize)
        :: (hs.filter (fun kv => !(strToLower kv.1 == "host")
              && !(strToLower kv.1 == "accept-encoding"))).map (fun kv => (strToLower kv.1, kv.2))
    from by simp [handleHTTPHeaders, h]] at hkv
  rcases List.mem_cons.mp hkv with hhead | htail
  · have h1 : kv.1 = "content-length" := by rw [hhead]
    rw [h1]
    exact ⟨by decide, by decide⟩
  · rcases List.mem_map.mp htail with ⟨a, haf, heq⟩
    have hcond := (List.mem_filter.mp haf).2
    subst heq
    simp only [Bool.and_eq_true, Bool.not_eq_true', beq_eq_false_iff_ne] at hcond
    exact hcond

/-- C9 counterexample. For an event whose only header is host, the event's
headers other than host and accept-encoding form the empty list, yet the
forwarded request carries a Content-Length header the adapter itself adds, so
the forwarded request does not carry exactly the remaining event headers with
nothing additional. -/
theorem handleHTTPHeaders_cex :
    (handleHTTPHeaders [("Host", "example.com")] "" "127.0.0.1:19000").1
        = [("content-length", "0")]
    ∧ ([("content-length", "0")] : List Header) ≠ [] := by
  exact ⟨by decide, by decide⟩

/-- C8 (amended). The adapter decides it is inside the serverless host exactly
when all three of AWS_LAMBDA_FUNCTION_NAME, AWS_LAMBDA_FUNCTION_VERSION and
AWS_LAMBDA_RUNTIME_API are non-empty in the starting environment; whenever
that condition is false, run exec-replaces the process with the user program,
preserving the program's arguments and handing it the stripped, dereferenced
environment. -/
theorem inLambda_run_spec (env : List EnvVar) (deref : String → String) :
    (inLambda env = true ↔
      (getenv env "AWS_LAMBDA_FUNCTION_NAME" ≠ ""
        ∧ getenv env "AWS_LAMBDA_FUNCTION_VERSION" ≠ ""
        ∧ getenv env "AWS_LAMBDA_RUNTIME_API" ≠ ""))
    ∧ (inLambda env = false → ∀ a c rest,
        run (a :: c :: rest) env deref
          = .execReplaced c (c :: rest) (starenvLoad deref (stripLambdafyEnv env))) := by
  constructor
  · simp [inLambda, and_assoc]
  · intro h a c rest
    simp [run, h]

/-- Witness for C8 at a concrete input: with an empty starting environment the
serverless-host test is false and run exec-replaces the process with the user
program and its arguments. -/
theorem inLambda_run_spec_witness :
    run ["lambdafy-proxy", "myapp", "arg1"] [] (fun v => v)
      = .execReplaced "myapp" ["myapp", "arg1"]
          (starenvLoad (fun v => v) (stripLambdafyEnv [])) :=
  (inLambda_run_spec [] (fun v => v)).2 rfl "lambdafy-proxy" "myapp" ["arg1"]

/-- C8 counterexample. An environment holding non-empty
AWS_LAMBDA_FUNCTION_NAME and AWS_LAMBDA_RUNTIME_API but no
AWS_LAMBDA_FUNCTION_VERSION satisfies the claim's condition, yet the code
decides it is not inside the serverless host. -/
theorem inLambda_cex :
    inLambda [("AWS_LAMBDA_FUNCTION_NAME", "fn"), ("AWS_LAMBDA_RUNTIME_API", "h")] = false
    ∧ getenv [("AWS_LAMBDA_FUNCTION_NAME", "fn"), ("AWS_LAMBDA_RUNTIME_API", "h")]
        "AWS_LAMBDA_FUNCTION_NAME" ≠ ""
    ∧ getenv [("AWS_LAMBDA_FUNCTION_NAME", "fn"), ("AWS_LAMBDA_RUNTIME_API", "h")]
        "AWS_LAMBDA_RUNTIME_API" ≠ "" := by
  refine ⟨by decide, by decide, by decide⟩

/-- C4. run strips every LAMBDAFY_-prefixed variable before starenv
dereferencing and before the user program starts: stripping by the combined
NAME=VALUE string equals stripping by name; no entry of the environment handed
to starenv or to the user program has a LAMBDAFY_-prefixed name; the run
outcome hands the user program exactly the stripped, dereferenced environment;
and two starting environments agreeing outside the LAMBDAFY_-prefixed names
give the user program the same environment and the same run outcome. -/
theorem run_lambdafy_hyperproperty (enva envb : List EnvVar) (deref : String → String)
    (a c : String) (rest : List String) :
    (stripLambdafyEnv enva = enva.filter (fun kv => ! strHasPref kv.1 lambdafyEnvPref))
    ∧ (∀ kv ∈ starenvLoad deref (stripLambdafyEnv enva),
        strHasPref kv.1 lambdafyEnvPref = false)
    ∧ (run (a :: c :: rest) enva deref
          = .lambdaMode c rest (starenvLoad deref (stripLambdafyEnv enva))
        ∨ run (a :: c :: rest) enva deref
          = .execReplaced c (c :: rest) (starenvLoad deref (stripLambdafyEnv enva)))
    ∧ (enva.filter (fun kv => ! strHasPref kv.1 lambdafyEnvPref)
          = envb.filter (fun kv => ! strHasPref kv.1 lambdafyEnvPref) →
        starenvLoad deref (stripLambdafyEnv enva) = starenvLoad deref (stripLambdafyEnv envb)
        ∧ run (a :: c :: rest) enva deref = run (a :: c :: rest) envb deref) := by
  have hstrip : ∀ env : List EnvVar,
      stripLambdafyEnv env = env.filter (fun kv => ! strHasPref kv.1 lambdafyEnvPref) := by
    intro env
    unfold stripLambdafyEnv
    congr 1
    funext kv
    rw [isLambdafyEntry_eq_name]
  refine ⟨hstrip enva, ?_, ?_, ?_⟩
  · intro kv hkv
    rcases List.mem_map.mp hkv with ⟨kv', hkv', heq⟩
    rw [hstrip enva] at hkv'
    have hcond := (List.mem_filter.mp hkv').2
    have hfst : kv.1 = kv'.1 := by rw [← heq]
    rw [hfst]
    simpa using hcond
  · unfold run
    cases h : inLambda enva
    · right; simp [h]
    · left; simp [h]
  · intro hagree
    have hchild : starenvLoad deref (stripLambdafyEnv enva)
        = starenvLoad deref (stripLambdafyEnv envb) := by
      rw [hstrip enva, hstrip envb, hagree]
    refine ⟨hchild, ?_⟩
    have hlk : ∀ k : String, strHasPref k lambdafyEnvPref = false →
        getenv enva k = getenv envb k := by
      intro k hk
      have hp : ∀ kv : EnvVar, kv.1 = k →
          (! strHasPref kv.1 lambdafyEnvPref) = true := by
        intro kv hkv; rw [hkv, hk]; rfl
      have h1 := lookup_filter k (fun kv => ! strHasPref kv.1 lambdafyEnvPref) hp enva
      have h2 := lookup_filter k (fun kv => ! strHasPref kv.1 lambdafyEnvPref) hp envb
      unfold getenv
      rw [← h1, ← h2, hagree]
    have hinl : inLambda enva = inLambda envb := by
      unfold inLambda
      rw [hlk "AWS_LAMBDA_FUNCTION_NAME" (by decide),
        hlk "AWS_LAMBDA_FUNCTION_VERSION" (by decide),
        hlk "AWS_LAMBDA_RUNTIME_API" (by decide)]
    cases hb : inLambda envb
    · have ha : inLambda enva = false := hinl.trans hb
      simp [run, ha, hb, hchild]
    · have ha : inLambda enva = true := hinl.trans hb
      simp [run, ha, hb, hchild]


/-- Looking up the key of a map-style label update yields the new value when
the key was present. -/
theorem lookup_map_set (k v : String) : ∀ ls : List (String × String),
    (ls.lookup k).isSome = true →
    (ls.map (fun kv => if kv.1 = k then (k, v) else kv)).lookup k = some v := by
  intro ls
  induction ls with
  | nil => simp
  | cons kv rest ih =>
    obtain ⟨n, w⟩ := kv
    intro h
    by_cases hk : n = k
    · subst hk
      simp [List.lookup_cons]
    · have hne : (k == n) = false := by
        simp [beq_eq_false_iff_ne, Ne.symm hk]
      rw [List.lookup_cons] at h
      simp only [hne] at h
      simp only [List.map_cons, if_neg hk]
      rw [List.lookup_cons]
      simp only [hne]
      exact ih h

/-- Appending a fresh key to a label list and looking it up yields its value. -/
theorem lookup_append_self (k v : String) : ∀ ls : List (String × String),
    ls.lookup k = none → (ls ++ [(k, v)]).lookup k = some v := by
  intro ls
  induction ls with
  | nil => simp [List.lookup]
  | cons kv rest ih =>
    obtain ⟨n, w⟩ := kv
    intro h
    by_cases hk : n = k
    · subst hk
      simp [List.lookup_cons] at h
    · have hne : (k == n) = false := by
        simp [beq_eq_false_iff_ne, Ne.symm hk]
      rw [List.lookup_cons] at h
      simp only [hne] at h
      rw [List.cons_append, List.lookup_cons]
      simp only [hne]
      exact ih h

/-- Setting a label and reading it back yields the set value. -/
theorem getLabel_setLabel (k v : String) (ls : List (String × String)) :
    getLabel (setLabel ls k v) k = v := by
  unfold setLabel getLabel
  by_cases h : (ls.lookup k).isSome
  · rw [if_pos h, lookup_map_set k v ls h]
    rfl
  · rw [if_neg h, lookup_append_self k v ls (Option.not_isSome_iff_eq_none.mp h)]
    rfl

/-- C6. Running lambdafyImage twice is idempotent: whenever a run succeeds,
the resulting image carries the checksum label equal to the adapter's SHA-256
hex, and running lambdafyImage again on that image is a successful no-op that
returns the same image without rebuilding, so the label is identical after
both runs. -/
theorem lambdafyImage_idempotent (chksum : String) (img img2 : DockerImage) (b : Bool)
    (h : lambdafyImage chksum img = .ok (img2, b)) :
    getLabel img2.labels proxyChecksumLabel = chksum
    ∧ lambdafyImage chksum img2 = .ok (img2, false) := by
  by_cases h0 : chksum = getLabel img.labels proxyChecksumLabel
  · rw [lambdafyImage, if_pos h0] at h
    obtain ⟨h1, h2⟩ := Prod.mk.injEq .. ▸ Except.ok.injEq .. ▸ h
    subst h1
    refine ⟨h0.symm, ?_⟩
    rw [lambdafyImage, if_pos h0]
  · by_cases h1 : img.architecture ≠ "amd64" ∨ img.os ≠ "linux"
    · rw [lambdafyImage, if_neg h0, if_pos h1] at h
      exact absurd h (by simp)
    · rw [lambdafyImage, if_neg h0, if_neg h1] at h
      obtain ⟨h2, h3⟩ := Prod.mk.injEq .. ▸ Except.ok.injEq .. ▸ h
      have hlab : getLabel img2.labels proxyChecksumLabel = chksum := by
        rw [← h2]
        exact getLabel_setLabel proxyChecksumLabel chksum img.labels
      refine ⟨hlab, ?_⟩
      rw [lambdafyImage, if_pos hlab.symm]

/-- Witness for C6 at a concrete image: a plain linux/amd64 image is rebuilt
once, carries the checksum label afterwards, and the second run is a no-op. -/
theorem lambdafyImage_idempotent_witness :
    getLabel (DockerImage.mk [(proxyChecksumLabel, "abc")]
        ["/lambdafy-proxy", "/bin/app"] ["serve"] "amd64" "linux").labels
      proxyChecksumLabel = "abc"
    ∧ lambdafyImage "abc"
        (DockerImage.mk [(proxyChecksumLabel, "abc")]
          ["/lambdafy-proxy", "/bin/app"] ["serve"] "amd64" "linux")
      = .ok (DockerImage.mk [(proxyChecksumLabel, "abc")]
          ["/lambdafy-proxy", "/bin/app"] ["serve"] "amd64" "linux", false) :=
  lambdafyImage_idempotent "abc" (DockerImage.mk [] ["/bin/app"] ["serve"] "amd64" "linux")
    (DockerImage.mk [(proxyChecksumLabel, "abc")]
      ["/lambdafy-proxy", "/bin/app"] ["serve"] "amd64" "linux") true (by rfl)

/-- C7. Evaluating resolveVersion of the versions.go document at the failing
input: a function whose only version is the pseudo-version has an empty
filtered version list, and the latest branch indexes the empty slice at
position minus one, a Go runtime panic, instead of returning an integer or a
NotFound error. Numeric and alias specs resolve as the claim says. -/
theorem resolveVersion_latest_empty_panics :
    resolveVersion
        (ProviderState.mk [] [] [] [] false [] [] "Active" [("$LATEST", "")] none)
        "latest" = .panicked
    ∧ resolveVersion
        (ProviderState.mk [] [] [] [] false [] [] "Active" [("$LATEST", "")] none)
        "7" = .ok 7
    ∧ resolveVersion
        (ProviderState.mk [] [("stable", "12")] [] [] false [] [] "Active"
          [("$LATEST", ""), ("12", "twelve")] none)
        "stable" = .ok 12 := by
  refine ⟨by decide, by decide, by decide⟩


/-- With the all-deliver outcome, the first batch call reports no failures and
the loop stops after one call carrying every entry id. -/
theorem batchLoop_allok (entries : List BatchEntry) :
    batchLoop (fun _ _ => none) 6 0 entries [] []
      = ([], [], [entries.map (fun en => en.id)]) := by
  have h1 : sendMessageBatch (fun _ _ => none) 1 entries = [] := by
    simp [sendMessageBatch]
  simp [batchLoop, h1]

/-- A batch send where every entry fails with a service fault reports every
submitted entry as failed. -/
theorem sendMessageBatch_allfail (a : Nat) : ∀ entries : List BatchEntry,
    sendMessageBatch (fun _ _ => some false) a entries
      = entries.map (fun en => (en, false)) := by
  intro entries
  unfold sendMessageBatch
  induction entries with
  | nil => simp
  | cons e es ih => simp_all [List.filterMap_cons]

/-- Splitting the all-service-fault failure list: every entry is retryable. -/
theorem filter_retryable_allfail : ∀ entries : List BatchEntry,
    ((entries.map (fun en => (en, false))).filter (fun p => ! p.2)).map
      (fun p => p.1) = entries := by
  intro entries
  induction entries with
  | nil => simp
  | cons e es ih => simp_all

/-- Splitting the all-service-fault failure list: no entry is a sender fault. -/
theorem filter_senderfault_allfail : ∀ entries : List BatchEntry,
    ((entries.map (fun en => (en, false))).filter (fun p => p.2)).map
      (fun p => p.1) = [] := by
  intro entries
  induction entries with
  | nil => simp
  | cons e es ih => simp_all

/-- With a persistent service-fault outcome the loop runs all five rounds on
the full entry list and leaves it retryable. -/
theorem batchLoop_allfail (entries : List BatchEntry) (h : entries.length > 0) :
    batchLoop (fun _ _ => some false) 6 0 entries [] []
      = (entries, [], List.replicate 5 (entries.map (fun en => en.id))) := by
  simp [batchLoop, sendMessageBatch_allfail, filter_retryable_allfail,
    filter_senderfault_allfail, h, List.replicate]

/-- The calls a run of the retry loop appends: at most five minus the attempts
already made, each carrying no more entries than the current retryable list. -/
theorem batchLoop_calls (oracle : BatchOracle) : ∀ (fuel attempts : Nat)
    (r nr : List BatchEntry) (cs : List (List Nat)),
    ∃ newCalls : List (List Nat),
      (batchLoop oracle fuel attempts r nr cs).2.2 = cs ++ newCalls
      ∧ newCalls.length ≤ 5 - attempts
      ∧ ∀ c ∈ newCalls, c.length ≤ r.length := by
  intro fuel
  induction fuel with
  | zero =>
    intro attempts r nr cs
    exact ⟨[], by simp [batchLoop], by simp, by simp⟩
  | succ fuel ih =>
    intro attempts r nr cs
    by_cases hg : ((attempts == 0 || decide (r.length > 0)) && decide (attempts < 5)) = true
    · have ha5 : attempts < 5 := of_decide_eq_true ((Bool.and_eq_true _ _).mp hg).2
      have hr2 : (((sendMessageBatch oracle (attempts + 1) r).filter
          (fun p => ! p.2)).map (fun p => p.1)).length ≤ r.length := by
        rw [List.length_map]
        exact le_trans (List.length_filter_le _ _) (List.length_filterMap_le _ _)
      obtain ⟨nc2, h1, h2, h3⟩ := ih (attempts + 1)
        (((sendMessageBatch oracle (attempts + 1) r).filter (fun p => ! p.2)).map (fun p => p.1))
        (nr ++ ((sendMessageBatch oracle (attempts + 1) r).filter (fun p => p.2)).map (fun p => p.1))
        (cs ++ [r.map (fun en => en.id)])
      refine ⟨r.map (fun en => en.id) :: nc2, ?_, ?_, ?_⟩
      · rw [show batchLoop oracle (fuel + 1) attempts r nr cs
            = batchLoop oracle fuel (attempts + 1)
                (((sendMessageBatch oracle (attempts + 1) r).filter
                  (fun p => ! p.2)).map (fun p => p.1))
                (nr ++ ((sendMessageBatch oracle (attempts + 1) r).filter
                  (fun p => p.2)).map (fun p => p.1))
                (cs ++ [r.map (fun en => en.id)])
          from by simp only [batchLoop, hg, if_true]]
        rw [h1, List.append_assoc]
        rfl
      · simp only [List.length_cons]
        omega
      · intro c hc
        rcases List.mem_cons.mp hc with rfl | hc2
        · simp
        · exact le_trans (h3 c hc2) hr2
    · refine ⟨[], ?_, by simp, by simp⟩
      rw [show batchLoop oracle (fuel + 1) attempts r nr cs = (r, nr, cs)
        from by simp only [batchLoop, hg, if_false]; rfl]
      simp

/-- handleSQSSend on the well-formed batch request, reduced past the method,
id, header and content-type guards. -/
theorem handleSQSSend_batchReq (messages : List String) (sendOk : Bool) (oracle : BatchOracle) :
    handleSQSSend (batchReq messages) sendOk oracle
      = (if messages.length = 0 then (400, [])
         else if messages.length > maxSQSBatchSize then (400, [])
         else
           if (batchLoop oracle 6 0 (messages.enum.map
                (fun p => BatchEntry.mk p.1 p.2)) [] []).1.length
              + (batchLoop oracle 6 0 (messages.enum.map
                (fun p => BatchEntry.mk p.1 p.2)) [] []).2.1.length > 0 then
             (500, (batchLoop oracle 6 0 (messages.enum.map
                (fun p => BatchEntry.mk p.1 p.2)) [] []).2.2.map SendCall.batch)
           else
             (200, (batchLoop oracle 6 0 (messages.enum.map
                (fun p => BatchEntry.mk p.1 p.2)) [] []).2.2.map SendCall.batch)) := by
  rfl

/-- The ids of the entries built from the messages are the message indices. -/
theorem entries_map_id (messages : List String) :
    (messages.enum.map (fun p => BatchEntry.mk p.1 p.2)).map (fun en => en.id)
      = List.range messages.length := by
  rw [List.map_map]
  have hcomp : ((fun en : BatchEntry => en.id)
      ∘ (fun p : Nat × String => BatchEntry.mk p.1 p.2)) = Prod.fst := rfl
  rw [hcomp, List.enum_eq_enumFrom, List.enumFrom_map_fst]
  exact (List.range_eq_range' _).symm

/-- C2 (amended). On the side-channel batch endpoint, an empty array and an
array of more than 10 messages are each rejected with status 400 and no
batch-send call; an array of 1 to 10 messages is submitted in one
SendMessageBatch call carrying every message index, at most 5 calls are made
in all and none carries more than 10 entries; when every entry delivers, the
handler answers 200 after exactly that one call; and when entries keep
failing retryably (non-sender-fault), all 5 rounds run and the handler
answers 500. -/
theorem handleSQSSend_spec (messages : List String) (oracle : BatchOracle) :
    (messages.length = 0 →
      handleSQSSend (batchReq messages) true oracle = (400, []))
    ∧ (messages.length > 10 →
      handleSQSSend (batchReq messages) true oracle = (400, []))
    ∧ (1 ≤ messages.length → messages.length ≤ 10 →
        ∃ calls : List (List Nat),
          (handleSQSSend (batchReq messages) true oracle).2 = calls.map SendCall.batch
          ∧ calls.head? = some (List.range messages.length)
          ∧ calls.length ≤ 5
          ∧ ∀ c ∈ calls, c.length ≤ 10)
    ∧ (1 ≤ messages.length → messages.length ≤ 10 →
        handleSQSSend (batchReq messages) true (fun _ _ => none)
          = (200, [SendCall.batch (List.range messages.length)]))
    ∧ (1 ≤ messages.length → messages.length ≤ 10 →
        handleSQSSend (batchReq messages) true (fun _ _ => some false)
          = (500, List.replicate 5 (SendCall.batch (List.range messages.length)))) := by
  have hel : (messages.enum.map (fun p => BatchEntry.mk p.1 p.2)).length
      = messages.length := by simp
  refine ⟨?_, ?_, ?_, ?_, ?_⟩
  · intro h
    rw [handleSQSSend_batchReq]
    rw [if_pos h]
  · intro h
    rw [handleSQSSend_batchReq]
    rw [if_neg (by omega), if_pos (by simpa [maxSQSBatchSize] using h)]
  · intro h1 h10
    rw [handleSQSSend_batchReq]
    rw [if_neg (by omega), if_neg (by simp [maxSQSBatchSize]; omega)]
    have hstep : batchLoop oracle 6 0 (messages.enum.map (fun p => BatchEntry.mk p.1 p.2)) [] []
        = batchLoop oracle 5 1
            (((sendMessageBatch oracle 1 (messages.enum.map
                (fun p => BatchEntry.mk p.1 p.2))).filter (fun p => ! p.2)).map (fun p => p.1))
            (((sendMessageBatch oracle 1 (messages.enum.map
                (fun p => BatchEntry.mk p.1 p.2))).filter (fun p => p.2)).map (fun p => p.1))
            [(messages.enum.map (fun p => BatchEntry.mk p.1 p.2)).map (fun en => en.id)] := by
      simp [batchLoop]
    obtain ⟨nc, hnc, hlen, hmem⟩ := batchLoop_calls oracle 5 1
      (((sendMessageBatch oracle 1 (messages.enum.map
          (fun p => BatchEntry.mk p.1 p.2))).filter (fun p => ! p.2)).map (fun p => p.1))
      (((sendMessageBatch oracle 1 (messages.enum.map
          (fun p => BatchEntry.mk p.1 p.2))).filter (fun p => p.2)).map (fun p => p.1))
      [(messages.enum.map (fun p => BatchEntry.mk p.1 p.2)).map (fun en => en.id)]
    have hr2 : (((sendMessageBatch oracle 1 (messages.enum.map
        (fun p => BatchEntry.mk p.1 p.2))).filter (fun p => ! p.2)).map
          (fun p => p.1)).length ≤ messages.length := by
      rw [List.length_map]
      exact le_trans (le_trans (List.length_filter_le _ _) (List.length_filterMap_le _ _))
        (le_of_eq hel)
    refine ⟨List.range messages.length :: nc, ?_, by simp,
      by simp [List.length_cons]; omega, ?_⟩
    · have hsnd : ∀ (P : Prop) [Decidable P] (x : List SendCall),
          (if P then ((500 : Nat), x) else (200, x)).2 = x := by
        intro P _ x
        split <;> rfl
      rw [hsnd]
      rw [hstep, hnc, entries_map_id]
      simp
    · intro c hc
      rcases List.mem_cons.mp hc with rfl | hc2
      · simpa using h10
      · exact le_trans (le_trans (hmem c hc2) hr2) h10
  · intro h1 h10
    rw [handleSQSSend_batchReq]
    rw [if_neg (by omega), if_neg (by simp [maxSQSBatchSize]; omega)]
    rw [batchLoop_allok]
    have hid2 : List.map ((fun en : BatchEntry => en.id)
        ∘ fun p : Nat × String => BatchEntry.mk p.1 p.2) messages.enum
        = List.range messages.length := by
      have := entries_map_id messages
      rwa [List.map_map] at this
    simp [hid2, entries_map_id]
  · intro h1 h10
    rw [handleSQSSend_batchReq]
    rw [if_neg (by omega), if_neg (by simp [maxSQSBatchSize]; omega)]
    have hpos : (messages.enum.map (fun p => BatchEntry.mk p.1 p.2)).length > 0 := by
      omega
    rw [batchLoop_allfail _ hpos]
    have hgt : (messages.enum.map (fun p => BatchEntry.mk p.1 p.2)).length + 0 > 0 := by
      omega
    rw [if_pos (by simpa using hgt)]
    rw [entries_map_id]
    simp [List.map_replicate]

/-- Witness for C2 at a concrete three-message batch: one call carrying the
three indices, answered 200. -/
theorem handleSQSSend_spec_witness :
    handleSQSSend (batchReq ["a", "b", "c"]) true (fun _ _ => none)
      = (200, [SendCall.batch (List.range 3)]) :=
  (handleSQSSend_spec ["a", "b", "c"] (fun _ _ => none)).2.2.2.1 (by decide) (by decide)

/-- C2 counterexample. A batch POST whose JSON body holds 23 strings is
rejected with status 400 and no batch-send call is issued at all, where the
claim says three underlying calls of sizes 10, 10 and 3 are made. -/
theorem handleSQSSend_cex :
    handleSQSSend (batchReq (List.replicate 23 "m")) true (fun _ _ => none) = (400, []) := by
  rfl

theorem foldl_setBindingState (st : String) : ∀ (sel bs : List Binding),
    sel.foldl (fun acc b => setBindingState acc b.uuid st) bs
      = bs.map (fun b =>
          if (sel.map (fun x => x.uuid)).contains b.uuid then { b with state := st } else b) := by
  intro sel
  induction sel with
  | nil =>
    intro bs
    simp
  | cons x sel ih =>
    intro bs
    rw [List.foldl_cons, ih (setBindingState bs x.uuid st)]
    unfold setBindingState
    rw [List.map_map]
    apply List.map_congr_left
    intro b _
    by_cases hx : b.uuid = x.uuid
    · simp only [Function.comp_apply, if_pos hx]
      have h1 : ({ b with state := st } : Binding).uuid = b.uuid := rfl
      by_cases h2 : ((sel.map (fun x => x.uuid)).contains b.uuid) = true
      · simp [h1, h2, hx, List.contains_cons]
      · simp [h1, h2, hx, List.contains_cons]
    · simp only [Function.comp_apply, if_neg hx]
      have hbe : (b.uuid == x.uuid) = false := by
        simp [hx]
      simp [List.contains_cons, hbe, hx]

theorem bindings_contains_iff (s : ProviderState) (v : Int)
    (hnodup : (s.bindings.map (fun b => b.uuid)).Nodup) :
    ∀ b ∈ s.bindings,
      (((s.bindings.filter (fun b => b.fnVersion == v)).map (fun x => x.uuid)).contains b.uuid)
        = (b.fnVersion == v) := by
  intro b hb
  by_cases hv : b.fnVersion = v
  · have hmem : b.uuid ∈ (s.bindings.filter (fun b => b.fnVersion == v)).map
        (fun x => x.uuid) :=
      List.mem_map.mpr ⟨b, List.mem_filter.mpr ⟨hb, by simpa using hv⟩, rfl⟩
    have h1 : (((s.bindings.filter (fun b => b.fnVersion == v)).map
        (fun x => x.uuid)).contains b.uuid) = true := by
      rw [List.contains_iff_exists_mem_beq]
      exact ⟨b.uuid, hmem, by simp⟩
    rw [h1]
    simp [hv]
  · have h1 : (((s.bindings.filter (fun b => b.fnVersion == v)).map
        (fun x => x.uuid)).contains b.uuid) = false := by
      by_contra hcon
      have hcon2 : (((s.bindings.filter (fun b => b.fnVersion == v)).map
          (fun x => x.uuid)).contains b.uuid) = true := by
        cases hq : (((s.bindings.filter (fun b => b.fnVersion == v)).map
            (fun x => x.uuid)).contains b.uuid)
        · exact absurd hq hcon
        · rfl
      rw [List.contains_iff_exists_mem_beq] at hcon2
      obtain ⟨u, hu, hbu⟩ := hcon2
      obtain ⟨x, hxf, hxu⟩ := List.mem_map.mp hu
      have hxmem := (List.mem_filter.mp hxf).1
      have hxv : x.fnVersion = v := by simpa using (List.mem_filter.mp hxf).2
      have huu : b.uuid = x.uuid := by
        rw [hxu]
        exact eq_of_beq hbu
      have hxb : x = b := List.inj_on_of_nodup_map hnodup hxmem hb huu.symm
      exact hv (hxb ▸ hxv)
    rw [h1]
    simp [hv]

theorem enableSQSTriggers_spec (s : ProviderState) (v : Int) (en : Bool)
    (hnodup : (s.bindings.map (fun b => b.uuid)).Nodup)
    (hsqs : ∀ b ∈ s.bindings, b.fnVersion = v → isSqsArn b.eventSourceArn = true) :
    enableSQSTriggers s v en
      = .ok ({ s with bindings := s.bindings.map (fun b =>
            if b.fnVersion == v then { b with state := desiredState en } else b) },
          enableTrace s v en) := by
  have hsel : (s.bindings.filter (fun b => b.fnVersion == v)).filter
      (fun b => isSqsArn b.eventSourceArn)
      = s.bindings.filter (fun b => b.fnVersion == v) := by
    rw [List.filter_eq_self]
    intro b hb
    have hm := List.mem_filter.mp hb
    exact hsqs b hm.1 (by simpa using hm.2)
  have hg_uuid : ∀ x : Binding,
      ((if x.fnVersion == v then { x with state := desiredState en } else x) : Binding).uuid
        = x.uuid := by
    intro x
    by_cases hx : (x.fnVersion == v) = true
    · simp [hx]
    · simp [hx]
  have hmapg : s.bindings.map (fun b =>
        if ((s.bindings.filter (fun b => b.fnVersion == v)).map
            (fun x => x.uuid)).contains b.uuid
        then { b with state := desiredState en } else b)
      = s.bindings.map (fun b =>
          if b.fnVersion == v then { b with state := desiredState en } else b) := by
    apply List.map_congr_left
    intro b hb
    rw [bindings_contains_iff s v hnodup b hb]
  have hall : (s.bindings.filter (fun b => b.fnVersion == v)).all (fun b =>
      match (s.bindings.map (fun b =>
          if b.fnVersion == v then { b with state := desiredState en } else b)).find?
          (fun b2 => b2.uuid == b.uuid) with
      | some b2 => b2.state == desiredState en
      | none => false) = true := by
    rw [List.all_eq_true]
    intro b hb
    have hbmem := (List.mem_filter.mp hb).1
    have hbv : b.fnVersion = v := by simpa using (List.mem_filter.mp hb).2
    have hsome : ((s.bindings.map (fun b =>
        if b.fnVersion == v then { b with state := desiredState en } else b)).find?
        (fun b2 => b2.uuid == b.uuid)).isSome := by
      rw [List.find?_isSome]
      refine ⟨(if b.fnVersion == v then { b with state := desiredState en } else b),
        List.mem_map.mpr ⟨b, hbmem, rfl⟩, ?_⟩
      rw [hg_uuid b]
      simp
    obtain ⟨b2, hb2⟩ := Option.isSome_iff_exists.mp hsome
    rw [hb2]
    have hpb2 := List.find?_some hb2
    have hmemb2 := List.mem_of_find?_eq_some hb2
    obtain ⟨b0, hb0, hgb0⟩ := List.mem_map.mp hmemb2
    have h3 : b2.uuid = b0.uuid := by
      rw [← hgb0]
      exact hg_uuid b0
    have h2 : b2.uuid = b.uuid := eq_of_beq hpb2
    rw [h3] at h2
    have hb0b : b0 = b := List.inj_on_of_nodup_map hnodup hb0 hbmem h2
    subst hb0b
    rw [← hgb0]
    simp only [hbv, beq_self_eq_true, if_true]
  simp only [enableSQSTriggers, hsel, foldl_setBindingState, hmapg, hall, if_true]
  rfl

theorem lookup_map_keep (name vstr n2 : String) (h : n2 ≠ name) :
    ∀ l : List (String × String),
      (l.map (fun p => if p.1 = name then (name, vstr) else p)).lookup n2 = l.lookup n2 := by
  intro l
  induction l with
  | nil => simp
  | cons kv rest ih =>
    obtain ⟨k, w⟩ := kv
    by_cases hk : k = name
    · subst hk
      have hne : (n2 == k) = false := by simp [h]
      have hhead : ((if ((k, w) : String × String).1 = k then (k, vstr) else (k, w)))
          = (k, vstr) := by simp
      rw [List.map_cons, hhead, List.lookup_cons, List.lookup_cons]
      simp only [hne]
      exact ih
    · have hhead : ((if ((k, w) : String × String).1 = name then (name, vstr) else (k, w)))
          = (k, w) := by simp [hk]
      rw [List.map_cons, hhead, List.lookup_cons, List.lookup_cons]
      cases hq : (n2 == k)
      · exact ih
      · rfl

theorem lookup_append_keep (name vstr n2 : String) (h : n2 ≠ name) :
    ∀ l : List (String × String),
      (l ++ [(name, vstr)]).lookup n2 = l.lookup n2 := by
  intro l
  induction l with
  | nil =>
    have hne : (n2 == name) = false := by simp [h]
    simp [List.lookup_cons, hne]
  | cons kv rest ih =>
    obtain ⟨k, w⟩ := kv
    simp only [List.cons_append, List.lookup_cons]
    cases hq : (n2 == k)
    · exact ih
    · rfl

theorem lookup_updateAliasMap_keep (name vstr n2 : String) (h : n2 ≠ name)
    (l : List (String × String)) :
    (updateAliasMap l name vstr).lookup n2 = l.lookup n2 := by
  unfold updateAliasMap
  by_cases hp : (l.lookup name).isSome
  · rw [if_pos hp]
    exact lookup_map_keep name vstr n2 h l
  · rw [if_neg hp]
    exact lookup_append_keep name vstr n2 h l

theorem prepareDeploy_fields (s : ProviderState) (v : Int) (name : String) :
    (prepareDeploy s v name).1.bindings = s.bindings
    ∧ (prepareDeploy s v name).1.getAliasErr = s.getAliasErr
    ∧ (prepareDeploy s v name).1.envVars = s.envVars
    ∧ (prepareDeploy s v name).1.fnState = s.fnState
    ∧ (prepareDeploy s v name).1.published = s.published
    ∧ ∀ n2, n2 ≠ name →
        (prepareDeploy s v name).1.aliases.lookup n2 = s.aliases.lookup n2 := by
  exact ⟨rfl, rfl, rfl, rfl, rfl,
    fun n2 h => lookup_updateAliasMap_keep name (toString v) n2 h s.aliases⟩

theorem prepareDeploy_events_named (s : ProviderState) (v : Int) (name : String) :
    ∀ ev ∈ (prepareDeploy s v name).2.1, eventAliasName ev = some name := by
  intro ev hev
  by_cases h1 : ((s.aliases.lookup name).isSome) = true <;>
    by_cases h2 : name ∈ s.urls <;>
      simp [prepareDeploy, h1, h2] at hev <;>
        rcases hev with rfl | rfl | rfl | rfl <;> rfl

theorem prepareDeploy_events_present (s : ProviderState) (v : Int) (name : String)
    (h : (s.aliases.lookup name).isSome = true) :
    ∃ urlEv, (prepareDeploy s v name).2.1
        = [Event.updateAlias name v, Event.getFunction name, urlEv, Event.addPermission name]
      ∧ (urlEv = Event.createFunctionUrl name ∨ urlEv = Event.updateFunctionUrl name) := by
  by_cases h2 : name ∈ s.urls
  · exact ⟨Event.updateFunctionUrl name, by simp [prepareDeploy, h, h2], Or.inr rfl⟩
  · exact ⟨Event.createFunctionUrl name, by simp [prepareDeploy, h, h2], Or.inl rfl⟩


theorem resolveVersion_active_eq (st : ProviderState) (vstr : String)
    (h1 : st.getAliasErr = none) (h2 : st.aliases.lookup activeAlias = some vstr) :
    resolveVersion st activeAlias
      = (match goAtoi vstr with
         | some v => ResolveResult.ok v
         | none => ResolveResult.err "failed to parse version") := by
  have he : ¬ (activeAlias = "") := by decide
  have ha : goAtoi activeAlias = none := by decide
  have hl : ¬ (activeAlias = latestPseudoVersion) := by decide
  simp only [resolveVersion, getAlias, h1, h2, ha, if_neg he, if_neg hl]

theorem resolveVersion_active_missing (st : ProviderState)
    (h1 : st.getAliasErr = none) (h2 : st.aliases.lookup activeAlias = none) :
    resolveVersion st activeAlias
        = .err ("failed to get alias: " ++ "ResourceNotFoundException: cannot find alias")
      ∧ strContains ("failed to get alias: " ++ "ResourceNotFoundException: cannot find alias")
          "ResourceNotFoundException" = true := by
  have he : ¬ (activeAlias = "") := by decide
  have ha : goAtoi activeAlias = none := by decide
  have hl : ¬ (activeAlias = latestPseudoVersion) := by decide
  constructor
  · simp only [resolveVersion, getAlias, h1, h2, ha, if_neg he, if_neg hl]
  · decide

theorem resolveVersion_active_fault (st : ProviderState) (m : String)
    (h1 : st.getAliasErr = some m) :
    resolveVersion st activeAlias = .err ("failed to get alias: " ++ m) := by
  have he : ¬ (activeAlias = "") := by decide
  have ha : goAtoi activeAlias = none := by decide
  have hl : ¬ (activeAlias = latestPseudoVersion) := by decide
  simp only [resolveVersion, getAlias, h1, ha, if_neg he, if_neg hl]

theorem midBindings_uuid (s0 : ProviderState) (v : Int) :
    (midBindings s0 v).map (fun b => b.uuid) = s0.bindings.map (fun b => b.uuid) := by
  unfold midBindings
  rw [List.map_map]
  apply List.map_congr_left
  intro b _
  by_cases hc : (b.fnVersion == v) = true
  · simp [hc, Function.comp]
  · simp [hc, Function.comp]

theorem midBindings_filter_other (s0 : ProviderState) (newVer oldVer : Int)
    (hne : oldVer ≠ newVer) :
    (midBindings s0 newVer).filter (fun b => b.fnVersion == oldVer)
      = s0.bindings.filter (fun b => b.fnVersion == oldVer) := by
  unfold midBindings
  rw [List.filter_map]
  have hcond : ∀ b : Binding,
      ((fun b : Binding => b.fnVersion == oldVer) ∘ (fun b =>
        if b.fnVersion == newVer then { b with state := "Enabled" } else b)) b
      = (b.fnVersion == oldVer) := by
    intro b
    by_cases hc : (b.fnVersion == newVer) = true
    · simp [Function.comp, hc]
    · simp [Function.comp, hc]
  rw [List.filter_congr (fun b _ => hcond b)]
  have hid : ∀ b ∈ s0.bindings.filter (fun b => b.fnVersion == oldVer),
      ((if b.fnVersion == newVer then { b with state := "Enabled" } else b) : Binding) = b := by
    intro b hb
    have hbv : b.fnVersion = oldVer := by
      simpa using (List.mem_filter.mp hb).2
    have hc : (b.fnVersion == newVer) = false := by
      simp [hbv, hne]
    simp [hc]
  calc (s0.bindings.filter (fun b => b.fnVersion == oldVer)).map (fun b =>
        if b.fnVersion == newVer then { b with state := "Enabled" } else b)
      = (s0.bindings.filter (fun b => b.fnVersion == oldVer)).map id := List.map_congr_left hid
    _ = s0.bindings.filter (fun b => b.fnVersion == oldVer) := List.map_id _

theorem midBindings_sqs_old (s0 : ProviderState) (newVer oldVer : Int)
    (hne : oldVer ≠ newVer)
    (hold : ∀ b ∈ s0.bindings, b.fnVersion = oldVer → isSqsArn b.eventSourceArn = true) :
    ∀ b ∈ midBindings s0 newVer, b.fnVersion = oldVer → isSqsArn b.eventSourceArn = true := by
  intro b hb hbv
  obtain ⟨b0, hb0, hbeq⟩ := List.mem_map.mp hb
  subst hbeq
  by_cases hc : (b0.fnVersion == newVer) = true
  · have h1 : b0.fnVersion = newVer := by simpa using hc
    have h2 : b0.fnVersion = oldVer := by simpa [hc] using hbv
    exact absurd (h2.symm.trans h1) hne
  · simp only [hc, if_false] at hbv ⊢
    simp only [Bool.false_eq_true, if_false] at hbv ⊢
    exact hold b0 hb0 hbv

theorem midBindings_enabled (s0 : ProviderState) (newVer oldVer : Int)
    (holdEn : ∀ b ∈ s0.bindings, b.fnVersion = oldVer → b.state = "Enabled") :
    ∀ b ∈ midBindings s0 newVer,
      (b.fnVersion = newVer ∨ b.fnVersion = oldVer) → b.state = "Enabled" := by
  intro b hb hv
  obtain ⟨b0, hb0, hbeq⟩ := List.mem_map.mp hb
  subst hbeq
  by_cases hc : (b0.fnVersion == newVer) = true
  · simp [hc]
  · simp only [hc, Bool.false_eq_true, if_false] at hv ⊢
    rcases hv with h | h
    · exact absurd (by simp [h]) hc
    · exact holdEn b0 hb0 h

theorem enableTrace_shape (s : ProviderState) (v : Int) (en : Bool) :
    ∀ ev ∈ enableTrace s v en,
      (∃ u, ev = Event.updateMapping u en) ∨ (∃ u, ev = Event.getMapping u) := by
  intro ev hev
  rcases List.mem_append.mp hev with h | h
  · obtain ⟨b, _, hbe⟩ := List.mem_map.mp h
    exact Or.inl ⟨b.uuid, hbe.symm⟩
  · obtain ⟨b, _, hbe⟩ := List.mem_map.mp h
    exact Or.inr ⟨b.uuid, hbe.symm⟩

theorem schedTrace_congr (s3 s0 : ProviderState) (v : Int)
    (h : s3.envVars = s0.envVars) : schedTrace s3 v = schedTrace s0 v := by
  unfold schedTrace
  rw [h]

theorem deployTail_eq (s3 : ProviderState) (v : Int) (a b : List Event) :
    ∃ s5 : ProviderState,
      deployTail s3 v a b
        = .ok ((prepareDeploy s5 v activeAlias).1,
            a ++ b ++ schedTrace s3 v ++ (prepareDeploy s5 v activeAlias).2.1)
      ∧ s5.aliases = s3.aliases ∧ s5.urls = s3.urls := by
  by_cases hc : ((cronsOf s3.envVars).length > 0)
  · refine
      ⟨({ s3 with schedGroup := true, schedules := (cronsOf s3.envVars).map (fun c => c.1) } : ProviderState),
        ?_, rfl, rfl⟩
    simp only [deployTail, schedTrace, hc, if_true, if_pos hc]
  · refine ⟨({ s3 with schedGroup := false, schedules := [] } : ProviderState), ?_, rfl, rfl⟩
    simp only [deployTail, schedTrace, hc, if_false, if_neg hc]

/-- C1: within every run of deploy, the staged-rollout operations occur in
strict order: the preactive-alias preparation events come first, then every
SQS binding pinned to the new version is enabled (updateMapping true followed
by getMapping polls), then the bindings of the previously active version --
resolved through the lambdafy-active alias -- are disabled, then the schedule
group is deleted and recreated, and the lambdafy-active alias, its function
URL and the public-invoke permission are updated last; between the enable and
the disable step the bindings of both versions are Enabled simultaneously. -/
theorem deploy_staged_rollout (s0 : ProviderState) (newVer oldVer : Int) (vstr : String)
    (hga : s0.getAliasErr = none)
    (hact : s0.aliases.lookup activeAlias = some vstr)
    (hv : goAtoi vstr = some oldVer)
    (hne : oldVer ≠ newVer)
    (hnodup : (s0.bindings.map (fun b => b.uuid)).Nodup)
    (hnew : ∀ b ∈ s0.bindings, b.fnVersion = newVer → isSqsArn b.eventSourceArn = true)
    (hold : ∀ b ∈ s0.bindings, b.fnVersion = oldVer → isSqsArn b.eventSourceArn = true)
    (holdEn : ∀ b ∈ s0.bindings, b.fnVersion = oldVer → b.state = "Enabled") :
    ∃ (sF : ProviderState) (preTr : List Event) (urlEv : Event),
      deploy s0 newVer true
        = .ok (sF,
            preTr ++ enableTrace s0 newVer true ++ enableTrace s0 oldVer false
              ++ schedTrace s0 newVer
              ++ [Event.updateAlias activeAlias newVer, Event.getFunction activeAlias,
                  urlEv, Event.addPermission activeAlias])
      ∧ (∀ ev ∈ preTr, eventAliasName ev = some preactiveAlias)
      ∧ (urlEv = Event.createFunctionUrl activeAlias ∨ urlEv = Event.updateFunctionUrl activeAlias)
      ∧ (∀ ev ∈ enableTrace s0 newVer true,
          (∃ u, ev = Event.updateMapping u true) ∨ (∃ u, ev = Event.getMapping u))
      ∧ (∀ ev ∈ enableTrace s0 oldVer false,
          (∃ u, ev = Event.updateMapping u false) ∨ (∃ u, ev = Event.getMapping u))
      ∧ (∀ b ∈ midBindings s0 newVer,
          (b.fnVersion = newVer ∨ b.fnVersion = oldVer) → b.state = "Enabled")
      ∧ enableSQSTriggers (prepareDeploy s0 newVer preactiveAlias).1 newVer true
          = .ok ({ (prepareDeploy s0 newVer preactiveAlias).1 with
              bindings := midBindings s0 newVer }, enableTrace s0 newVer true) := by
  obtain ⟨hb1, hg1, he1, hf1, hp1, hl1⟩ := prepareDeploy_fields s0 newVer preactiveAlias
  have hen := enableSQSTriggers_spec (prepareDeploy s0 newVer preactiveAlias).1 newVer true
    (by rw [hb1]; exact hnodup) (by rw [hb1]; exact hnew)
  have htr1 : enableTrace (prepareDeploy s0 newVer preactiveAlias).1 newVer true
      = enableTrace s0 newVer true := by
    unfold enableTrace
    rw [hb1]
  have hmid : (prepareDeploy s0 newVer preactiveAlias).1.bindings.map (fun b =>
      if b.fnVersion == newVer then { b with state := desiredState true } else b)
      = midBindings s0 newVer := by
    rw [hb1]
    rfl
  rw [htr1, hmid] at hen
  have hs2g : ({ (prepareDeploy s0 newVer preactiveAlias).1 with
      bindings := midBindings s0 newVer } : ProviderState).getAliasErr = none := by
    show (prepareDeploy s0 newVer preactiveAlias).1.getAliasErr = none
    rw [hg1]
    exact hga
  have hs2a : ({ (prepareDeploy s0 newVer preactiveAlias).1 with
      bindings := midBindings s0 newVer } : ProviderState).aliases.lookup activeAlias
      = some vstr := by
    show (prepareDeploy s0 newVer preactiveAlias).1.aliases.lookup activeAlias = some vstr
    rw [hl1 activeAlias (by decide)]
    exact hact
  have hres : resolveVersion ({ (prepareDeploy s0 newVer preactiveAlias).1 with
      bindings := midBindings s0 newVer } : ProviderState) activeAlias
      = .ok oldVer := by
    rw [resolveVersion_active_eq _ vstr hs2g hs2a, hv]
  have hs2nodup : (({ (prepareDeploy s0 newVer preactiveAlias).1 with
      bindings := midBindings s0 newVer } : ProviderState).bindings.map
        (fun b => b.uuid)).Nodup := by
    show ((midBindings s0 newVer).map (fun b => b.uuid)).Nodup
    rw [midBindings_uuid]
    exact hnodup
  have hs2sqs : ∀ b ∈ ({ (prepareDeploy s0 newVer preactiveAlias).1 with
      bindings := midBindings s0 newVer } : ProviderState).bindings,
      b.fnVersion = oldVer → isSqsArn b.eventSourceArn = true :=
    midBindings_sqs_old s0 newVer oldVer hne hold
  have hdis := enableSQSTriggers_spec ({ (prepareDeploy s0 newVer preactiveAlias).1 with
      bindings := midBindings s0 newVer } : ProviderState) oldVer false hs2nodup hs2sqs
  have htr2 : enableTrace ({ (prepareDeploy s0 newVer preactiveAlias).1 with
      bindings := midBindings s0 newVer } : ProviderState) oldVer false
      = enableTrace s0 oldVer false := by
    unfold enableTrace
    show ((midBindings s0 newVer).filter _).map _ ++ ((midBindings s0 newVer).filter _).map _ = _
    rw [midBindings_filter_other s0 newVer oldVer hne]
  rw [htr2] at hdis
  obtain ⟨s5, htail, hs5a, hs5u⟩ := deployTail_eq
    ({ ({ (prepareDeploy s0 newVer preactiveAlias).1 with
        bindings := midBindings s0 newVer } : ProviderState) with
      bindings := ({ (prepareDeploy s0 newVer preactiveAlias).1 with
        bindings := midBindings s0 newVer } : ProviderState).bindings.map (fun b =>
          if b.fnVersion == oldVer then { b with state := desiredState false } else b) } : ProviderState)
    newVer ((prepareDeploy s0 newVer preactiveAlias).2.1 ++ enableTrace s0 newVer true)
    (enableTrace s0 oldVer false)
  have hsched : schedTrace ({ ({ (prepareDeploy s0 newVer preactiveAlias).1 with
        bindings := midBindings s0 newVer } : ProviderState) with
      bindings := ({ (prepareDeploy s0 newVer preactiveAlias).1 with
        bindings := midBindings s0 newVer } : ProviderState).bindings.map (fun b =>
          if b.fnVersion == oldVer then { b with state := desiredState false } else b) } : ProviderState)
      newVer = schedTrace s0 newVer := by
    apply schedTrace_congr
    show (prepareDeploy s0 newVer preactiveAlias).1.envVars = s0.envVars
    exact he1
  rw [hsched] at htail
  have hs5l : (s5.aliases.lookup activeAlias).isSome = true := by
    rw [hs5a]
    show ((prepareDeploy s0 newVer preactiveAlias).1.aliases.lookup activeAlias).isSome = true
    rw [hl1 activeAlias (by decide), hact]
    rfl
  obtain ⟨urlEv, hact2, hurl⟩ := prepareDeploy_events_present s5 newVer activeAlias hs5l
  rw [hact2] at htail
  refine ⟨(prepareDeploy s5 newVer activeAlias).1,
    (prepareDeploy s0 newVer preactiveAlias).2.1, urlEv, ?_,
    prepareDeploy_events_named s0 newVer preactiveAlias, hurl,
    enableTrace_shape s0 newVer true, enableTrace_shape s0 oldVer false,
    midBindings_enabled s0 newVer oldVer holdEn, hen⟩
  simp only [deploy, Bool.not_true, Bool.false_eq_true, if_false, hen, hres, hdis]
  rw [htail]

theorem schedTrace_shape (s : ProviderState) (v : Int) :
    ∀ ev ∈ schedTrace s v, ∀ u bb, ev ≠ Event.updateMapping u bb := by
  intro ev hev u bb
  unfold schedTrace at hev
  rcases List.mem_cons.mp hev with rfl | hev2
  · simp
  · rcases List.mem_cons.mp hev2 with rfl | hev3
    · simp
    · by_cases hc : ((cronsOf s.envVars).length > 0)
      · rw [if_pos hc] at hev3
        rcases List.mem_cons.mp hev3 with rfl | hev4
        · simp
        · obtain ⟨c, -, hrfl⟩ := List.mem_map.mp hev4
          rw [← hrfl]
          simp
      · rw [if_neg hc] at hev3
        simp at hev3

/-- C10: when the function has no lambdafy-active alias, resolveVersion of
that alias fails with an error containing ResourceNotFoundException; deploy
treats this as non-fatal, skipping only the disable-previous-version step
(no updateMapping-disable event appears in its trace) and running to
completion, and undeploy skips both the disable step and the stabilization
wait and goes straight to deleting the alias; an alias-resolution error not
containing ResourceNotFoundException aborts both operations. -/
theorem deploy_undeploy_missing_active (s0 : ProviderState) (newVer : Int)
    (hga : s0.getAliasErr = none)
    (hmiss : s0.aliases.lookup activeAlias = none)
    (hnodup : (s0.bindings.map (fun b => b.uuid)).Nodup)
    (hnew : ∀ b ∈ s0.bindings, b.fnVersion = newVer → isSqsArn b.eventSourceArn = true) :
    (∃ m, resolveVersion s0 activeAlias = .err m
        ∧ strContains m "ResourceNotFoundException" = true)
    ∧ (∃ sF tr, deploy s0 newVer true = .ok (sF, tr)
        ∧ ∀ u, Event.updateMapping u false ∉ tr)
    ∧ (∃ sF, undeploy s0 = .ok (sF, [Event.deleteAlias activeAlias]))
    ∧ (∀ m, strContains ("failed to get alias: " ++ m) "ResourceNotFoundException" = false →
        (∃ e, deploy ({ s0 with getAliasErr := some m }) newVer true = .err e)
        ∧ (∃ e, undeploy ({ s0 with getAliasErr := some m }) = .err e)) := by
  obtain ⟨hra, hrc⟩ := resolveVersion_active_missing s0 hga hmiss
  refine ⟨⟨_, hra, hrc⟩, ?_, ?_, ?_⟩
  · obtain ⟨hb1, hg1, he1, hf1, hp1, hl1⟩ := prepareDeploy_fields s0 newVer preactiveAlias
    have hen := enableSQSTriggers_spec (prepareDeploy s0 newVer preactiveAlias).1 newVer true
      (by rw [hb1]; exact hnodup) (by rw [hb1]; exact hnew)
    have hs2g : ({ (prepareDeploy s0 newVer preactiveAlias).1 with
        bindings := (prepareDeploy s0 newVer preactiveAlias).1.bindings.map (fun b =>
          if b.fnVersion == newVer then { b with state := desiredState true } else b)
        } : ProviderState).getAliasErr = none := by
      show (prepareDeploy s0 newVer preactiveAlias).1.getAliasErr = none
      rw [hg1]
      exact hga
    have hs2m : ({ (prepareDeploy s0 newVer preactiveAlias).1 with
        bindings := (prepareDeploy s0 newVer preactiveAlias).1.bindings.map (fun b =>
          if b.fnVersion == newVer then { b with state := desiredState true } else b)
        } : ProviderState).aliases.lookup activeAlias = none := by
      show (prepareDeploy s0 newVer preactiveAlias).1.aliases.lookup activeAlias = none
      rw [hl1 activeAlias (by decide)]
      exact hmiss
    obtain ⟨hra2, hrc2⟩ := resolveVersion_active_missing _ hs2g hs2m
    obtain ⟨s5, htail, hs5a, hs5u⟩ := deployTail_eq
      ({ (prepareDeploy s0 newVer preactiveAlias).1 with
        bindings := (prepareDeploy s0 newVer preactiveAlias).1.bindings.map (fun b =>
          if b.fnVersion == newVer then { b with state := desiredState true } else b)
        } : ProviderState) newVer
      ((prepareDeploy s0 newVer preactiveAlias).2.1
        ++ enableTrace (prepareDeploy s0 newVer preactiveAlias).1 newVer true) []
    have hdep : deploy s0 newVer true
        = OpResult.ok ((prepareDeploy s5 newVer activeAlias).1,
            ((prepareDeploy s0 newVer preactiveAlias).2.1
                ++ enableTrace (prepareDeploy s0 newVer preactiveAlias).1 newVer true)
              ++ []
              ++ schedTrace ({ (prepareDeploy s0 newVer preactiveAlias).1 with
                  bindings := (prepareDeploy s0 newVer preactiveAlias).1.bindings.map (fun b =>
                    if b.fnVersion == newVer then { b with state := desiredState true } else b)
                  } : ProviderState) newVer
              ++ (prepareDeploy s5 newVer activeAlias).2.1) := by
      simp only [deploy, Bool.not_true, Bool.false_eq_true, if_false, hen, hra2, hrc2, if_true]
      exact htail
    refine ⟨(prepareDeploy s5 newVer activeAlias).1, _, hdep, ?_⟩
    intro u hu
    rcases List.mem_append.mp hu with h1 | h1
    · rcases List.mem_append.mp h1 with h2 | h2
      · rcases List.mem_append.mp h2 with h3 | h3
        · rcases List.mem_append.mp h3 with h4 | h4
          · have := prepareDeploy_events_named s0 newVer preactiveAlias _ h4
            simp [eventAliasName] at this
          · rcases enableTrace_shape _ newVer true _ h4 with ⟨u2, h5⟩ | ⟨u2, h5⟩
            · simp at h5
            · simp at h5
        · simp at h3
      · exact schedTrace_shape _ newVer _ h2 u false rfl
    · have := prepareDeploy_events_named s5 newVer activeAlias _ h1
      simp [eventAliasName] at this
  · refine ⟨({ s0 with
        aliases := s0.aliases.filter (fun p => ! (p.1 == activeAlias)) } : ProviderState), ?_⟩
    simp only [undeploy, hra, hrc, if_true, deleteActiveAlias, List.nil_append]
  · intro m hm
    constructor
    · obtain ⟨hb1, hg1, he1, hf1, hp1, hl1⟩ :=
        prepareDeploy_fields ({ s0 with getAliasErr := some m }) newVer preactiveAlias
      have hen := enableSQSTriggers_spec
        (prepareDeploy ({ s0 with getAliasErr := some m }) newVer preactiveAlias).1 newVer true
        (by rw [hb1]; exact hnodup) (by rw [hb1]; exact hnew)
      have hfault := resolveVersion_active_fault
        ({ (prepareDeploy ({ s0 with getAliasErr := some m }) newVer preactiveAlias).1 with
          bindings := (prepareDeploy ({ s0 with getAliasErr := some m }) newVer
            preactiveAlias).1.bindings.map (fun b =>
              if b.fnVersion == newVer then { b with state := desiredState true } else b)
          } : ProviderState) m
        (by
          show (prepareDeploy ({ s0 with getAliasErr := some m }) newVer
            preactiveAlias).1.getAliasErr = some m
          rw [hg1])
      simp only [deploy, Bool.not_true, Bool.false_eq_true, if_false, hen, hfault, hm]
      exact ⟨_, rfl⟩
    · have hfault0 := resolveVersion_active_fault ({ s0 with getAliasErr := some m }) m rfl
      simp only [undeploy, hfault0, hm, Bool.false_eq_true, if_false]
      exact ⟨_, rfl⟩

theorem deploy_staged_rollout_witness :
    ∃ (sF : ProviderState) (tr : List Event),
      deploy sampleDeployState 8 true = OpResult.ok (sF, tr) := by
  obtain ⟨sF, preTr, urlEv, h, -⟩ :=
    deploy_staged_rollout sampleDeployState 8 7 "7" (by decide) (by decide) (by decide)
      (by decide) (by decide) (by decide) (by decide) (by decide)
  exact ⟨sF, _, h⟩

theorem deploy_undeploy_missing_active_witness :
    (∃ sF tr, deploy sampleFirstDeployState 8 true = OpResult.ok (sF, tr)
        ∧ ∀ u, Event.updateMapping u false ∉ tr)
    ∧ (∃ sF, undeploy sampleFirstDeployState
        = OpResult.ok (sF, [Event.deleteAlias activeAlias])) := by
  obtain ⟨-, h2, h3, -⟩ :=
    deploy_undeploy_missing_active sampleFirstDeployState 8 (by decide) (by decide)
      (by decide) (by decide)
  exact ⟨h2, h3⟩

end Lambdafy
